import Mathlib

/-!
Shallow embedding of the kitties asset-registry pallet
(src/pallets/template/src/lib.rs and src/pallets/template/src/impls.rs).

Account identifiers, 256-bit DNA identifiers and balances are modelled as
natural numbers.  The asset table (storage map `Kitties`) is an association
list; the per-owner inventory (storage map `KittiesOwned`, a `BoundedVec`
with bound `MaxKittiesOwned`) and the external funds ledger are total
functions with default values, matching `ValueQuery` semantics.

Every operation returns the dispatch result together with the storage state
after the call.  Error paths return the state that the ambient storage holds
at the moment the error propagates: the source performs no rollback, so a
write that happened before the failing step stays visible (this matters only
for `do_buy_kitty`, whose funds transfer precedes the internal ownership
transfer; all other operations perform their checks before any write).
-/

namespace KittiesPallet

/-- Kitty record from lib.rs: dna, owner and an optional sale price. -/
structure Kitty where
  dna : Nat
  owner : Nat
  price : Option Nat
deriving Repr, DecidableEq

/-- Error enum of the pallet (lib.rs), extended with the error surfaced by
the external funds ledger and the bad-origin error of the dispatch layer. -/
inductive Err where
  | TooManyKitties
  | DuplicateKitty
  | TooManyOwned
  | TransferToSelf
  | NoKitty
  | NotOwner
  | NotForSale
  | MaxPriceTooLow
  | InsufficientBalance
  | BadOrigin
deriving Repr, DecidableEq

/-- Storage state of the pallet plus the balance table of the external
funds ledger. -/
structure State where
  kitties : List (Nat × Kitty)
  kittiesOwned : Nat → List Nat
  countForKitties : Nat
  balances : Nat → Nat

/-- Genesis storage: all maps empty, counter zero, ledger empty. -/
def emptyState : State where
  kitties := []
  kittiesOwned := fun _ => []
  countForKitties := 0
  balances := fun _ => 0

/-- StorageMap `get` on the asset table. -/
def getA (l : List (Nat × Kitty)) (d : Nat) : Option Kitty :=
  (l.find? (fun p => p.1 == d)).map (fun p => p.2)

/-- StorageMap `contains_key` on the asset table. -/
def containsKey (l : List (Nat × Kitty)) (d : Nat) : Bool :=
  (getA l d).isSome

/-- StorageMap `insert`: overwrites an existing entry, otherwise appends. -/
def insertA (l : List (Nat × Kitty)) (d : Nat) (k : Kitty) : List (Nat × Kitty) :=
  if containsKey l d then
    l.map (fun p => if p.1 = d then (d, k) else p)
  else
    l ++ [(d, k)]

/-- Checked u32 increment: `current_count.checked_add(1)` fails exactly when
the counter sits at the numeric maximum of u32. -/
def checkedAddOne (n : Nat) : Option Nat :=
  if n + 1 < 2 ^ 32 then some (n + 1) else none

/-- Vec::swap_remove at a valid index: the element at `ind` is replaced by
the last element and the last slot is dropped. -/
def swapRemove (l : List Nat) (ind : Nat) : List Nat :=
  (l.set ind (l.getLastD 0)).dropLast

/-- Modelled from the spec: the external fungible funds ledger collaborator
(`T::NativeBalance::transfer(from, to, amount, Preservation::Preserve)` of
impls.rs is provided by a pallet outside this repository).  Per the spec it
moves `amount` from `from` to `to` and otherwise fails with the ledger's
error leaving balances untouched; the minimum-existence policy is the
ledger's own and is modelled as the trivial one. -/
def nativeBalanceTransfer (source dest amount : Nat) (st : State) :
    Except Err Unit × State :=
  if amount ≤ st.balances source then
    let debited : Nat → Nat :=
      fun a => if a = source then st.balances source - amount else st.balances a
    (.ok (), { st with balances := fun a => if a = dest then debited dest + amount else debited a })
  else (.error .InsufficientBalance, st)

/-- mint of impls.rs: duplicate check, checked counter increment, bounded
append to the owner's inventory, then table insert and counter write. -/
def mint (maxOwned : Nat) (owner dna : Nat) (st : State) : Except Err Unit × State :=
  let kitty : Kitty := { dna := dna, owner := owner, price := none }
  if containsKey st.kitties dna then (.error .DuplicateKitty, st)
  else
    match checkedAddOne st.countForKitties with
    | none => (.error .TooManyKitties, st)
    | some newCount =>
      let owned := st.kittiesOwned owner
      if owned.length < maxOwned then
        (.ok (),
          { kitties := insertA st.kitties dna kitty
            kittiesOwned := fun a => if a = owner then owned ++ [dna] else st.kittiesOwned a
            countForKitties := newCount
            balances := st.balances })
      else (.error .TooManyOwned, st)

/-- Iterator `position`: index of the first element satisfying `p`. -/
def position (p : Nat → Bool) : List Nat → Option Nat
  | [] => none
  | x :: xs => if p x then some 0 else (position p xs).map (· + 1)

/-- do_transfer of impls.rs: self-transfer check, existence check, owner
check, bounded push into the destination inventory, positional swap-remove
from the source inventory, then the three storage writes. -/
def do_transfer (maxOwned : Nat) (from_ to_ kitty_id : Nat) (st : State) :
    Except Err Unit × State :=
  if from_ = to_ then (.error .TransferToSelf, st)
  else
    match getA st.kitties kitty_id with
    | none => (.error .NoKitty, st)
    | some kitty =>
      if kitty.owner = from_ then
        let kitty' : Kitty := { kitty with owner := to_ }
        let to_owned := st.kittiesOwned to_
        if to_owned.length < maxOwned then
          let from_owned := st.kittiesOwned from_
          match position (fun i => i == kitty_id) from_owned with
          | some ind =>
            (.ok (),
              { kitties := insertA st.kitties kitty_id kitty'
                kittiesOwned := fun a =>
                  if a = from_ then swapRemove from_owned ind
                  else if a = to_ then to_owned ++ [kitty_id]
                  else st.kittiesOwned a
                countForKitties := st.countForKitties
                balances := st.balances })
          | none => (.error .NoKitty, st)
        else (.error .TooManyOwned, st)
      else (.error .NotOwner, st)

/-- do_set_price of impls.rs: existence check, owner check, unconditional
price overwrite. -/
def do_set_price (caller kitty_id : Nat) (new_price : Option Nat) (st : State) :
    Except Err Unit × State :=
  match getA st.kitties kitty_id with
  | none => (.error .NoKitty, st)
  | some kitty =>
    if kitty.owner = caller then
      (.ok (), { st with kitties := insertA st.kitties kitty_id { kitty with price := new_price } })
    else (.error .NotOwner, st)

/-- do_buy_kitty of impls.rs: existence check, for-sale check, ceiling
check, external funds transfer of the listed price, then the internal
ownership transfer.  A failure of the internal transfer does not undo the
funds transfer. -/
def do_buy_kitty (maxOwned : Nat) (buyer kitty_id price : Nat) (st : State) :
    Except Err Unit × State :=
  match getA st.kitties kitty_id with
  | none => (.error .NoKitty, st)
  | some kitty =>
    match kitty.price with
    | none => (.error .NotForSale, st)
    | some real_price =>
      if real_price ≤ price then
        match nativeBalanceTransfer buyer kitty.owner real_price st with
        | (.error e, st1) => (.error e, st1)
        | (.ok _, st1) =>
          match do_transfer maxOwned kitty.owner buyer kitty_id st1 with
          | (.error e, st2) => (.error e, st2)
          | (.ok _, st2) => (.ok (), st2)
      else (.error .MaxPriceTooLow, st)

/-- Dispatch origin of an extrinsic call, as supplied by frame_system. -/
inductive Origin where
  | signed (who : Nat)
  | root
  | unsigned
deriving Repr, DecidableEq

/-- ensure_signed of frame_system: succeeds exactly on a signed origin. -/
def ensure_signed (origin : Origin) : Except Err Nat :=
  match origin with
  | .signed who => .ok who
  | _ => .error .BadOrigin

/-- Extrinsic `transfer` of lib.rs: checks the signature and returns Ok
without touching storage (the transfer logic is not wired in). -/
def transfer (origin : Origin) (to_ kitty_id : Nat) (st : State) :
    Except Err Unit × State :=
  match ensure_signed origin with
  | .error e => (.error e, st)
  | .ok _who => (.ok (), st)

/-- Extrinsic `set_price` of lib.rs: checks the signature and returns Ok
without touching storage (the price logic is not wired in). -/
def set_price (origin : Origin) (kitty_id : Nat) (new_price : Option Nat) (st : State) :
    Except Err Unit × State :=
  match ensure_signed origin with
  | .error e => (.error e, st)
  | .ok _who => (.ok (), st)

/-- Extrinsic `buy_kitty` of lib.rs: checks the signature and returns Ok
without touching storage (the buy logic is not wired in). -/
def buy_kitty (origin : Origin) (kitty_id max_price : Nat) (st : State) :
    Except Err Unit × State :=
  match ensure_signed origin with
  | .error e => (.error e, st)
  | .ok _who => (.ok (), st)

/-- Block-level context read by gen_dna from frame_system. -/
structure BlockContext where
  parent_hash : Nat
  block_number : Nat
  extrinsic_index : Option Nat
deriving Repr, DecidableEq

/-- Encoding of the optional extrinsic index into a natural number. -/
def encodeOpt : Option Nat → Nat
  | none => 0
  | some n => n + 1

/-- Modelled from the spec: BlakeTwo256, the external cryptographic hash of
sp_runtime used by gen_dna, is outside this repository.  Only that it is a
fixed deterministic function of the encoded payload into the 256-bit space
is relied on; it is modelled as an injective pairing reduced mod 2 ^ 256. -/
def blakeTwo256HashOf (p : Nat × Nat × Option Nat × Nat) : Nat :=
  Nat.pair p.1 (Nat.pair p.2.1 (Nat.pair (encodeOpt p.2.2.1) p.2.2.2)) % 2 ^ 256

/-- gen_dna of impls.rs: hashes the tuple of parent hash, block number,
extrinsic index and the current kitty counter; it reads the counter from
storage and writes nothing, so the state is returned unchanged. -/
def gen_dna (ctx : BlockContext) (st : State) : Nat × State :=
  (blakeTwo256HashOf (ctx.parent_hash, ctx.block_number, ctx.extrinsic_index,
    st.countForKitties), st)

/-- States reachable from genesis through successful registry operations. -/
inductive Reachable (maxOwned : Nat) : State → Prop where
  | empty : Reachable maxOwned emptyState
  | mint_step {st st' : State} {owner dna : Nat} :
      Reachable maxOwned st → mint maxOwned owner dna st = (.ok (), st') →
      Reachable maxOwned st'
  | transfer_step {st st' : State} {from_ to_ kitty_id : Nat} :
      Reachable maxOwned st → do_transfer maxOwned from_ to_ kitty_id st = (.ok (), st') →
      Reachable maxOwned st'
  | set_price_step {st st' : State} {caller kitty_id : Nat} {new_price : Option Nat} :
      Reachable maxOwned st → do_set_price caller kitty_id new_price st = (.ok (), st') →
      Reachable maxOwned st'
  | buy_step {st st' : State} {buyer kitty_id price : Nat} :
      Reachable maxOwned st → do_buy_kitty maxOwned buyer kitty_id price st = (.ok (), st') →
      Reachable maxOwned st'

/-- Inventory consistency (invariant 1 of the spec): every asset recorded
in the asset table appears in its recorded owner's inventory exactly once
and in no other owner's inventory. -/
def inventoryConsistent (st : State) : Prop :=
  ∀ dna k, getA st.kitties dna = some k →
    (st.kittiesOwned k.owner).count dna = 1 ∧
    ∀ acc, acc ≠ k.owner → dna ∉ st.kittiesOwned acc

/-- Companion invariant: every identifier in some owner's inventory is in
the asset table and recorded as owned by that owner. -/
def ownedSound (st : State) : Prop :=
  ∀ acc dna, dna ∈ st.kittiesOwned acc → ∃ k, getA st.kitties dna = some k ∧ k.owner = acc

/-- Combined inductive invariant carried through the reachability proof. -/
def Inv (st : State) : Prop :=
  inventoryConsistent st ∧ ownedSound st

/-- Counter agreement (invariant 4 of the spec): the global counter equals
the number of entries of the asset table. -/
def counterAgrees (st : State) : Prop :=
  st.countForKitties = st.kitties.length

/-- Concrete state: account 1 owns kitty 7, listed at price 10; account 2
holds balance 100. -/
def listedState : State where
  kitties := [(7, { dna := 7, owner := 1, price := some 10 })]
  kittiesOwned := fun a => if a = 1 then [7] else []
  countForKitties := 1
  balances := fun a => if a = 2 then 100 else 0

/-- Concrete state: account 1 owns kitty 7 listed at price 10, account 2
owns kitty 8 and holds balance 100 (so with MaxOwned = 1 account 2's
inventory is full). -/
def fullBuyerState : State where
  kitties := [(7, { dna := 7, owner := 1, price := some 10 }),
              (8, { dna := 8, owner := 2, price := none })]
  kittiesOwned := fun a => if a = 1 then [7] else if a = 2 then [8] else []
  countForKitties := 2
  balances := fun a => if a = 2 then 100 else 0

/-- State reached by one successful mint from genesis (owner 0, dna 7,
MaxOwned 5). -/
def mintedState : State := (mint 5 0 7 emptyState).2

/-- Concrete state: account 1 owns kitty 7, listed at price 10, and holds
balance 50. -/
def richOwnerState : State where
  kitties := [(7, { dna := 7, owner := 1, price := some 10 })]
  kittiesOwned := fun a => if a = 1 then [7] else []
  countForKitties := 1
  balances := fun a => if a = 1 then 50 else 0

/-! Helper lemmas about the association-list storage model. -/

theorem getA_cons (p : Nat × Kitty) (t : List (Nat × Kitty)) (d : Nat) :
    getA (p :: t) d = if p.1 = d then some p.2 else getA t d := by
  by_cases h : p.1 = d <;> simp [getA, List.find?_cons, h]

theorem containsKey_iff (l : List (Nat × Kitty)) (d : Nat) :
    containsKey l d = true ↔ ∃ k, getA l d = some k := by
  cases h : getA l d <;> simp [containsKey, h]

theorem find?_eq_none_of_not_contains (l : List (Nat × Kitty)) (d : Nat)
    (h : containsKey l d = false) : l.find? (fun p => p.1 == d) = none := by
  have h2 : getA l d = none := by
    cases h3 : getA l d
    · rfl
    · simp [containsKey, h3] at h
  cases h4 : l.find? (fun p => p.1 == d)
  · rfl
  · simp [getA, h4] at h2

theorem getA_map_ne (d : Nat) (k : Kitty) (d' : Nat) (hne : d' ≠ d) :
    ∀ t : List (Nat × Kitty),
      getA (t.map (fun q => if q.1 = d then (d, k) else q)) d' = getA t d'
  | [] => rfl
  | q :: t => by
    have hdd : ¬ d = d' := fun h => hne h.symm
    rw [List.map_cons, getA_cons, getA_cons, getA_map_ne d k d' hne t]
    by_cases hq : q.1 = d
    · simp [hq, hdd]
    · simp [hq]

theorem getA_map_self (d : Nat) (k : Kitty) :
    ∀ t : List (Nat × Kitty), containsKey t d = true →
      getA (t.map (fun q => if q.1 = d then (d, k) else q)) d = some k
  | [], h => by simp [containsKey, getA] at h
  | q :: t, h => by
    rw [List.map_cons, getA_cons]
    by_cases hq : q.1 = d
    · simp [hq]
    · rw [containsKey, getA_cons, if_neg hq] at h
      simp only [if_neg hq]
      exact getA_map_self d k t h

theorem getA_insertA (l : List (Nat × Kitty)) (d : Nat) (k : Kitty) (d' : Nat) :
    getA (insertA l d k) d' = if d' = d then some k else getA l d' := by
  unfold insertA
  by_cases hc : containsKey l d
  · rw [if_pos hc]
    by_cases hd : d' = d
    · subst hd
      rw [if_pos rfl, getA_map_self d' k l hc]
    · rw [if_neg hd, getA_map_ne d k d' hd l]
  · have hc' : containsKey l d = false := by simpa using hc
    rw [if_neg hc]
    by_cases hd : d' = d
    · rw [if_pos hd]
      unfold getA
      rw [List.find?_append, hd, find?_eq_none_of_not_contains l d hc']
      simp [List.find?]
    · rw [if_neg hd]
      unfold getA
      rw [List.find?_append]
      have h1 : List.find? (fun p => p.1 == d') [(d, k)] = none := by
        have h2 : (d == d') = false := by
          simpa using fun h : d = d' => hd h.symm
        simp [List.find?, h2]
      rw [h1]
      simp

theorem length_insertA (l : List (Nat × Kitty)) (d : Nat) (k : Kitty) :
    (insertA l d k).length = if containsKey l d then l.length else l.length + 1 := by
  unfold insertA
  by_cases hc : containsKey l d <;> simp [hc]

/-! Helper lemmas about iterator position and Vec::swap_remove. -/

theorem position_eq_none_iff (p : Nat → Bool) (l : List Nat) :
    position p l = none ↔ ∀ x ∈ l, p x = false := by
  induction l with
  | nil => simp [position]
  | cons x xs ih =>
    by_cases h : p x <;> simp [position, h, ih]

theorem position_spec (p : Nat → Bool) :
    ∀ (l : List Nat) (i : Nat), position p l = some i →
      ∃ h : i < l.length, p (l.get ⟨i, h⟩) = true := by
  intro l
  induction l with
  | nil => intro i h; simp [position] at h
  | cons x xs ih =>
    intro i h
    by_cases hx : p x
    · rw [position, if_pos hx] at h
      cases h
      exact ⟨by simp, by simpa using hx⟩
    · rw [position, if_neg hx] at h
      rw [Option.map_eq_some'] at h
      obtain ⟨j, hj, rfl⟩ := h
      obtain ⟨hlt, hp⟩ := ih j hj
      refine ⟨by simpa using Nat.succ_lt_succ hlt, ?_⟩
      simpa [List.get_eq_getElem, List.getElem_cons_succ] using hp

theorem swapRemove_perm (l : List Nat) (ind : Nat) (h : ind < l.length) :
    (l.get ⟨ind, h⟩ :: swapRemove l ind).Perm l := by
  have hne : l ≠ [] := by
    intro e
    subst e
    simp at h
  have hM : l.dropLast ++ [l.getLast hne] = l := List.dropLast_append_getLast hne
  have hy : l.getLastD 0 = l.getLast hne := by
    rw [List.getLastD_eq_getLast?, List.getLast?_eq_getLast l hne]
    rfl
  have hlen : l.dropLast.length = l.length - 1 := List.length_dropLast l
  set g := l.getLast hne with hg
  have hP : (l.dropLast ++ [g]).Perm l := by
    conv_rhs => rw [← hM]
  by_cases hc : ind < l.dropLast.length
  · have hsw : swapRemove l ind = l.dropLast.set ind g := by
      unfold swapRemove
      rw [hy]
      conv_lhs => rw [← hM]
      rw [List.set_append, if_pos hc, List.dropLast_concat]
    have hx : l.get ⟨ind, h⟩ = l.dropLast.get ⟨ind, hc⟩ := by
      rw [List.get_eq_getElem, List.get_eq_getElem, List.getElem_of_eq hM.symm h]
      exact List.getElem_append_left hc
    have hM2 : l.dropLast.take ind ++ l.dropLast.get ⟨ind, hc⟩ :: l.dropLast.drop (ind + 1) =
        l.dropLast := by
      rw [List.get_eq_getElem, List.getElem_cons_drop l.dropLast ind hc]
      exact List.take_append_drop ind l.dropLast
    have hset : l.dropLast.set ind g =
        l.dropLast.take ind ++ g :: l.dropLast.drop (ind + 1) := by
      rw [List.set_eq_take_append_cons_drop, if_pos hc]
    rw [hsw, hset, hx]
    have p1 := (@List.perm_middle Nat g
      (l.dropLast.take ind) (l.dropLast.drop (ind + 1))).cons
      (l.dropLast.get ⟨ind, hc⟩)
    have p2 := List.Perm.swap g (l.dropLast.get ⟨ind, hc⟩)
      (l.dropLast.take ind ++ l.dropLast.drop (ind + 1))
    have p3 := (@List.perm_middle Nat (l.dropLast.get ⟨ind, hc⟩)
      (l.dropLast.take ind) (l.dropLast.drop (ind + 1))).symm.cons g
    refine ((p1.trans p2).trans p3).trans ?_
    rw [hM2]
    exact (List.perm_append_singleton g l.dropLast).symm.trans hP
  · have hind : ind = l.length - 1 := by omega
    have hsw : swapRemove l ind = l.dropLast := by
      unfold swapRemove
      rw [hy]
      conv_lhs => rw [← hM]
      rw [List.set_append, if_neg hc]
      have h0 : ind - l.dropLast.length = 0 := by omega
      rw [h0]
      rw [show ([g].set 0 g) = [g] from rfl]
      exact List.dropLast_concat
    have hx : l.get ⟨ind, h⟩ = g := by
      rw [List.get_eq_getElem, hg, List.getLast_eq_getElem l hne]
      simp [hind]
    rw [hsw, hx]
    exact (List.perm_append_singleton g l.dropLast).symm.trans hP

theorem count_swapRemove (l : List Nat) (ind : Nat) (h : ind < l.length) (d : Nat) :
    (swapRemove l ind).count d + (if l.get ⟨ind, h⟩ = d then 1 else 0) = l.count d := by
  have hperm := (swapRemove_perm l ind h).count_eq d
  rw [List.count_cons] at hperm
  simpa [beq_iff_eq] using hperm

/-! Elimination and frame lemmas for the operations. -/

theorem mint_ok_elim {maxOwned owner dna : Nat} {st st' : State}
    (hm : mint maxOwned owner dna st = (.ok (), st')) :
    containsKey st.kitties dna = false ∧
    st.countForKitties + 1 < 2 ^ 32 ∧
    (st.kittiesOwned owner).length < maxOwned ∧
    st'.kitties = insertA st.kitties dna { dna := dna, owner := owner, price := none } ∧
    st'.kittiesOwned =
      (fun a => if a = owner then st.kittiesOwned owner ++ [dna] else st.kittiesOwned a) ∧
    st'.countForKitties = st.countForKitties + 1 ∧
    st'.balances = st.balances := by
  unfold mint at hm
  by_cases h1 : containsKey st.kitties dna
  · simp [h1] at hm
  · rw [if_neg h1] at hm
    by_cases h2 : st.countForKitties + 1 < 2 ^ 32
    · simp only [checkedAddOne, if_pos h2] at hm
      by_cases h3 : (st.kittiesOwned owner).length < maxOwned
      · rw [if_pos h3] at hm
        injection hm with hm1 hm2
        subst hm2
        exact ⟨by simpa using h1, h2, h3, rfl, rfl, rfl, rfl⟩
      · rw [if_neg h3] at hm
        simp at hm
    · simp only [checkedAddOne, if_neg h2] at hm
      simp at hm

theorem mint_err_eq {maxOwned owner dna : Nat} {st st' : State} {e : Err}
    (hm : mint maxOwned owner dna st = (.error e, st')) : st' = st := by
  unfold mint at hm
  by_cases h1 : containsKey st.kitties dna
  · rw [if_pos h1] at hm
    injection hm with hm1 hm2
    exact hm2.symm
  · rw [if_neg h1] at hm
    by_cases h2 : st.countForKitties + 1 < 2 ^ 32
    · simp only [checkedAddOne, if_pos h2] at hm
      by_cases h3 : (st.kittiesOwned owner).length < maxOwned
      · rw [if_pos h3] at hm
        simp at hm
      · rw [if_neg h3] at hm
        injection hm with hm1 hm2
        exact hm2.symm
    · simp only [checkedAddOne, if_neg h2] at hm
      injection hm with hm1 hm2
      exact hm2.symm

theorem do_transfer_ok_elim {maxOwned from_ to_ kitty_id : Nat} {st st' : State}
    (ht : do_transfer maxOwned from_ to_ kitty_id st = (.ok (), st')) :
    from_ ≠ to_ ∧ ∃ kitty ind,
      getA st.kitties kitty_id = some kitty ∧
      kitty.owner = from_ ∧
      (st.kittiesOwned to_).length < maxOwned ∧
      position (fun i => i == kitty_id) (st.kittiesOwned from_) = some ind ∧
      st'.kitties = insertA st.kitties kitty_id { kitty with owner := to_ } ∧
      st'.kittiesOwned = (fun a =>
        if a = from_ then swapRemove (st.kittiesOwned from_) ind
        else if a = to_ then st.kittiesOwned to_ ++ [kitty_id]
        else st.kittiesOwned a) ∧
      st'.countForKitties = st.countForKitties ∧
      st'.balances = st.balances := by
  unfold do_transfer at ht
  by_cases h1 : from_ = to_
  · simp [h1] at ht
  · rw [if_neg h1] at ht
    cases hk : getA st.kitties kitty_id with
    | none => simp [hk] at ht
    | some kitty =>
      simp only [hk] at ht
      by_cases h2 : kitty.owner = from_
      · rw [if_pos h2] at ht
        by_cases h3 : (st.kittiesOwned to_).length < maxOwned
        · rw [if_pos h3] at ht
          cases hpos : position (fun i => i == kitty_id) (st.kittiesOwned from_) with
          | none => simp [hpos] at ht
          | some ind =>
            simp only [hpos] at ht
            injection ht with ht1 ht2
            subst ht2
            exact ⟨h1, kitty, ind, rfl, h2, h3, rfl, rfl, rfl, rfl, rfl⟩
        · rw [if_neg h3] at ht
          simp at ht
      · rw [if_neg h2] at ht
        simp at ht

theorem do_transfer_err_eq {maxOwned from_ to_ kitty_id : Nat} {st st' : State} {e : Err}
    (ht : do_transfer maxOwned from_ to_ kitty_id st = (.error e, st')) : st' = st := by
  unfold do_transfer at ht
  by_cases h1 : from_ = to_
  · rw [if_pos h1] at ht
    injection ht with ht1 ht2
    exact ht2.symm
  · rw [if_neg h1] at ht
    cases hk : getA st.kitties kitty_id with
    | none =>
      simp only [hk] at ht
      injection ht with ht1 ht2
      exact ht2.symm
    | some kitty =>
      simp only [hk] at ht
      by_cases h2 : kitty.owner = from_
      · rw [if_pos h2] at ht
        by_cases h3 : (st.kittiesOwned to_).length < maxOwned
        · rw [if_pos h3] at ht
          cases hpos : position (fun i => i == kitty_id) (st.kittiesOwned from_) with
          | none =>
            simp only [hpos] at ht
            injection ht with ht1 ht2
            exact ht2.symm
          | some ind =>
            simp only [hpos] at ht
            simp at ht
        · rw [if_neg h3] at ht
          injection ht with ht1 ht2
          exact ht2.symm
      · rw [if_neg h2] at ht
        injection ht with ht1 ht2
        exact ht2.symm

theorem do_set_price_ok_elim {caller kitty_id : Nat} {new_price : Option Nat} {st st' : State}
    (hs : do_set_price caller kitty_id new_price st = (.ok (), st')) :
    ∃ kitty,
      getA st.kitties kitty_id = some kitty ∧
      kitty.owner = caller ∧
      st'.kitties = insertA st.kitties kitty_id { kitty with price := new_price } ∧
      st'.kittiesOwned = st.kittiesOwned ∧
      st'.countForKitties = st.countForKitties ∧
      st'.balances = st.balances := by
  unfold do_set_price at hs
  cases hk : getA st.kitties kitty_id with
  | none => simp [hk] at hs
  | some kitty =>
    simp only [hk] at hs
    by_cases h2 : kitty.owner = caller
    · rw [if_pos h2] at hs
      injection hs with hs1 hs2
      subst hs2
      exact ⟨kitty, rfl, h2, rfl, rfl, rfl, rfl⟩
    · rw [if_neg h2] at hs
      simp at hs

theorem do_set_price_err_eq {caller kitty_id : Nat} {new_price : Option Nat} {st st' : State}
    {e : Err} (hs : do_set_price caller kitty_id new_price st = (.error e, st')) : st' = st := by
  unfold do_set_price at hs
  cases hk : getA st.kitties kitty_id with
  | none =>
    simp only [hk] at hs
    injection hs with hs1 hs2
    exact hs2.symm
  | some kitty =>
    simp only [hk] at hs
    by_cases h2 : kitty.owner = caller
    · rw [if_pos h2] at hs
      simp at hs
    · rw [if_neg h2] at hs
      injection hs with hs1 hs2
      exact hs2.symm

theorem ledger_tables_eq (source dest amount : Nat) (st : State) :
    (nativeBalanceTransfer source dest amount st).2.kitties = st.kitties ∧
    (nativeBalanceTransfer source dest amount st).2.kittiesOwned = st.kittiesOwned ∧
    (nativeBalanceTransfer source dest amount st).2.countForKitties = st.countForKitties := by
  unfold nativeBalanceTransfer
  by_cases h : amount ≤ st.balances source
  · rw [if_pos h]
    exact ⟨rfl, rfl, rfl⟩
  · rw [if_neg h]
    exact ⟨rfl, rfl, rfl⟩

theorem ledger_err_eq {source dest amount : Nat} {st st' : State} {e : Err}
    (h : nativeBalanceTransfer source dest amount st = (.error e, st')) : st' = st := by
  unfold nativeBalanceTransfer at h
  by_cases h1 : amount ≤ st.balances source
  · rw [if_pos h1] at h
    simp at h
  · rw [if_neg h1] at h
    injection h with h2 h3
    exact h3.symm

theorem ledger_ok_elim {source dest amount : Nat} {st st' : State}
    (h : nativeBalanceTransfer source dest amount st = (.ok (), st')) :
    amount ≤ st.balances source ∧
    st'.kitties = st.kitties ∧
    st'.kittiesOwned = st.kittiesOwned ∧
    st'.countForKitties = st.countForKitties ∧
    (source ≠ dest → st'.balances source + amount = st.balances source) ∧
    (source ≠ dest → st'.balances dest = st.balances dest + amount) ∧
    (source = dest → ∀ x, st'.balances x = st.balances x) ∧
    (∀ x, x ≠ source → x ≠ dest → st'.balances x = st.balances x) := by
  unfold nativeBalanceTransfer at h
  by_cases h1 : amount ≤ st.balances source
  · rw [if_pos h1] at h
    injection h with h2 h3
    have hb : ∀ x, st'.balances x =
        if x = dest then
          (if dest = source then st.balances source - amount else st.balances dest) + amount
        else if x = source then st.balances source - amount else st.balances x := by
      intro x
      rw [← h3]
    refine ⟨h1, by rw [← h3], by rw [← h3], by rw [← h3], ?_, ?_, ?_, ?_⟩
    · intro hne
      rw [hb source, if_neg (fun hh : source = dest => hne hh), if_pos rfl]
      omega
    · intro hne
      rw [hb dest, if_pos rfl, if_neg (fun hh : dest = source => hne hh.symm)]
    · intro he x
      rw [hb x]
      by_cases hx : x = dest
      · rw [if_pos hx, if_pos he.symm, hx, ← he]
        omega
      · have hxs : ¬ x = source := fun hh => hx (hh.trans he)
        rw [if_neg hx, if_neg hxs]
    · intro x hxs hxd
      rw [hb x, if_neg hxd, if_neg hxs]
  · rw [if_neg h1] at h
    simp at h

theorem do_buy_kitty_ok_elim {maxOwned buyer kitty_id price : Nat} {st st' : State}
    (h : do_buy_kitty maxOwned buyer kitty_id price st = (.ok (), st')) :
    ∃ kitty real_price st1,
      getA st.kitties kitty_id = some kitty ∧
      kitty.price = some real_price ∧
      real_price ≤ price ∧
      nativeBalanceTransfer buyer kitty.owner real_price st = (.ok (), st1) ∧
      do_transfer maxOwned kitty.owner buyer kitty_id st1 = (.ok (), st') := by
  unfold do_buy_kitty at h
  cases hk : getA st.kitties kitty_id with
  | none => simp [hk] at h
  | some kitty =>
    simp only [hk] at h
    cases hp : kitty.price with
    | none => simp [hp] at h
    | some real_price =>
      simp only [hp] at h
      by_cases h1 : real_price ≤ price
      · rw [if_pos h1] at h
        cases hled : nativeBalanceTransfer buyer kitty.owner real_price st with
        | mk res1 st1 =>
          cases res1 with
          | error e =>
            simp only [hled] at h
            simp at h
          | ok u =>
            cases u
            simp only [hled] at h
            cases htr : do_transfer maxOwned kitty.owner buyer kitty_id st1 with
            | mk res2 st2 =>
              cases res2 with
              | error e =>
                simp only [htr] at h
                simp at h
              | ok u2 =>
                cases u2
                simp only [htr] at h
                injection h with h2 h3
                subst h3
                exact ⟨kitty, real_price, st1, rfl, hp, h1, hled, htr⟩
      · rw [if_neg h1] at h
        simp at h

/-! Counting corollaries used by the invariant proofs. -/

theorem count_append_singleton_ne {l : List Nat} {d x : Nat} (h : d ≠ x) :
    (l ++ [x]).count d = l.count d := by
  rw [List.count_append]
  have hx : (x == d) = false := by simpa using fun hh : x = d => h hh.symm
  simp [List.count_singleton, hx]

theorem count_append_singleton_self (l : List Nat) (d : Nat) :
    (l ++ [d]).count d = l.count d + 1 := by
  rw [List.count_append]
  simp

theorem position_beq_of_mem {l : List Nat} {d : Nat} (h : d ∈ l) :
    ∃ ind, position (fun i => i == d) l = some ind := by
  cases hp : position (fun i => i == d) l with
  | some ind => exact ⟨ind, rfl⟩
  | none =>
    rw [position_eq_none_iff] at hp
    have := hp d h
    simp at this

theorem count_swapRemove_found {l : List Nat} {ind d : Nat}
    (hpos : position (fun i => i == d) l = some ind) :
    (swapRemove l ind).count d + 1 = l.count d := by
  obtain ⟨hlt, hp⟩ := position_spec _ l ind hpos
  have hval : l.get ⟨ind, hlt⟩ = d := by simpa using hp
  have hcnt := count_swapRemove l ind hlt d
  rw [if_pos hval] at hcnt
  exact hcnt

theorem count_swapRemove_other {l : List Nat} {ind d d0 : Nat}
    (hpos : position (fun i => i == d0) l = some ind) (hne : d ≠ d0) :
    (swapRemove l ind).count d = l.count d := by
  obtain ⟨hlt, hp⟩ := position_spec _ l ind hpos
  have hval : l.get ⟨ind, hlt⟩ = d0 := by simpa using hp
  have hcnt := count_swapRemove l ind hlt d
  rw [if_neg (by rw [hval]; exact fun hh => hne hh.symm)] at hcnt
  simpa using hcnt

theorem not_mem_swapRemove_of_count_one {l : List Nat} {ind d : Nat}
    (hpos : position (fun i => i == d) l = some ind)
    (h1 : l.count d = 1) : d ∉ swapRemove l ind := by
  have hf := count_swapRemove_found hpos
  rw [h1] at hf
  have h0 : (swapRemove l ind).count d = 0 := by omega
  exact List.count_eq_zero.mp h0

theorem mem_of_mem_swapRemove {l : List Nat} {ind d : Nat} (hlt : ind < l.length)
    (h : d ∈ swapRemove l ind) : d ∈ l := by
  have hc := count_swapRemove l ind hlt d
  have hpos : 0 < (swapRemove l ind).count d := List.count_pos_iff.mpr h
  have : 0 < l.count d := by omega
  exact List.count_pos_iff.mp this

/-! Preservation of the combined invariant by each operation. -/

theorem Inv_mint {maxOwned owner dna : Nat} {st st' : State} (hI : Inv st)
    (hm : mint maxOwned owner dna st = (.ok (), st')) : Inv st' := by
  obtain ⟨hIC, hOS⟩ := hI
  obtain ⟨hnc, hlt, hcap, hk, ho, hc, hbal⟩ := mint_ok_elim hm
  have hfresh : ∀ acc, dna ∉ st.kittiesOwned acc := by
    intro acc hmem
    obtain ⟨k2, hk2, hk2o⟩ := hOS acc dna hmem
    have hct : containsKey st.kitties dna = true := (containsKey_iff _ _).mpr ⟨k2, hk2⟩
    rw [hnc] at hct
    cases hct
  constructor
  · intro d k hget
    rw [hk, getA_insertA] at hget
    by_cases hd : d = dna
    · subst hd
      rw [if_pos rfl] at hget
      injection hget with hkk
      subst hkk
      refine ⟨?_, ?_⟩
      · simp only [ho, if_true]
        rw [count_append_singleton_self]
        rw [List.count_eq_zero.mpr (hfresh owner)]
      · intro acc hacc
        have hacc' : acc ≠ owner := by simpa using hacc
        simp only [ho, if_neg hacc']
        exact hfresh acc
    · rw [if_neg hd] at hget
      obtain ⟨h1, h2⟩ := hIC d k hget
      refine ⟨?_, ?_⟩
      · simp only [ho]
        by_cases hko : k.owner = owner
        · simp only [if_pos hko]
          rw [count_append_singleton_ne hd, ← hko]
          exact h1
        · simp only [if_neg hko]
          exact h1
      · intro acc hacc
        simp only [ho]
        by_cases hao : acc = owner
        · simp only [if_pos hao]
          intro hmem
          rcases List.mem_append.mp hmem with hm1 | hm2
          · exact h2 acc hacc (hao ▸ hm1)
          · exact hd (List.mem_singleton.mp hm2)
        · simp only [if_neg hao]
          exact h2 acc hacc
  · intro acc d hmem
    simp only [ho] at hmem
    rw [hk, getA_insertA]
    by_cases hao : acc = owner
    · rw [if_pos hao] at hmem
      rcases List.mem_append.mp hmem with hm1 | hm2
      · obtain ⟨k2, hk2, hk2o⟩ := hOS acc d (hao ▸ hm1)
        have hd : d ≠ dna := by
          intro he
          exact hfresh acc (he ▸ hao ▸ hm1)
        rw [if_neg hd]
        exact ⟨k2, hk2, hk2o⟩
      · have hd : d = dna := List.mem_singleton.mp hm2
        rw [if_pos hd]
        exact ⟨_, rfl, hao.symm⟩
    · rw [if_neg hao] at hmem
      obtain ⟨k2, hk2, hk2o⟩ := hOS acc d hmem
      have hd : d ≠ dna := by
        intro he
        exact hfresh acc (he ▸ hmem)
      rw [if_neg hd]
      exact ⟨k2, hk2, hk2o⟩

theorem Inv_transfer {maxOwned from_ to_ kitty_id : Nat} {st st' : State} (hI : Inv st)
    (ht : do_transfer maxOwned from_ to_ kitty_id st = (.ok (), st')) : Inv st' := by
  obtain ⟨hIC, hOS⟩ := hI
  obtain ⟨hft, kitty, ind, hget0, hown, hcap, hpos, hk, ho, hc, hbal⟩ := do_transfer_ok_elim ht
  obtain ⟨hcnt1, hnotin⟩ := hIC kitty_id kitty hget0
  rw [hown] at hcnt1 hnotin
  have hnotin_to : kitty_id ∉ st.kittiesOwned to_ := hnotin to_ (fun h => hft h.symm)
  obtain ⟨hltind, hpval⟩ :=
    position_spec (fun i => i == kitty_id) (st.kittiesOwned from_) ind hpos
  have hoto : ({ kitty with owner := to_ } : Kitty).owner = to_ := rfl
  constructor
  · intro d k hget
    rw [hk, getA_insertA] at hget
    by_cases hd : d = kitty_id
    · subst hd
      rw [if_pos rfl] at hget
      injection hget with hkk
      subst hkk
      refine ⟨?_, ?_⟩
      · simp only [ho, hoto]
        rw [if_neg (fun h : to_ = from_ => hft h.symm)]
        simp only [if_true]
        rw [count_append_singleton_self]
        rw [List.count_eq_zero.mpr hnotin_to]
      · intro acc hacc
        rw [hoto] at hacc
        simp only [ho]
        by_cases haf : acc = from_
        · rw [if_pos haf]
          exact not_mem_swapRemove_of_count_one hpos hcnt1
        · rw [if_neg haf, if_neg hacc]
          exact hnotin acc haf
    · rw [if_neg hd] at hget
      obtain ⟨h1, h2⟩ := hIC d k hget
      refine ⟨?_, ?_⟩
      · simp only [ho]
        by_cases hkf : k.owner = from_
        · rw [if_pos hkf]
          rw [count_swapRemove_other hpos hd]
          rw [← hkf]
          exact h1
        · rw [if_neg hkf]
          by_cases hkt : k.owner = to_
          · rw [if_pos hkt]
            rw [count_append_singleton_ne hd, ← hkt]
            exact h1
          · rw [if_neg hkt]
            exact h1
      · intro acc hacc
        simp only [ho]
        by_cases haf : acc = from_
        · rw [if_pos haf]
          intro hmem
          have hmem' : d ∈ st.kittiesOwned from_ := mem_of_mem_swapRemove hltind hmem
          exact h2 acc hacc (haf ▸ hmem')
        · rw [if_neg haf]
          by_cases hat : acc = to_
          · rw [if_pos hat]
            intro hmem
            rcases List.mem_append.mp hmem with hm1 | hm2
            · exact h2 acc hacc (hat ▸ hm1)
            · exact hd (List.mem_singleton.mp hm2)
          · rw [if_neg hat]
            exact h2 acc hacc
  · intro acc d hmem
    simp only [ho] at hmem
    rw [hk, getA_insertA]
    by_cases haf : acc = from_
    · rw [if_pos haf] at hmem
      have hmem' : d ∈ st.kittiesOwned from_ := mem_of_mem_swapRemove hltind hmem
      have hd : d ≠ kitty_id := by
        intro he
        subst he
        exact not_mem_swapRemove_of_count_one hpos hcnt1 hmem
      rw [if_neg hd]
      obtain ⟨k2, hk2, hk2o⟩ := hOS from_ d hmem'
      exact ⟨k2, hk2, by rw [haf, hk2o]⟩
    · rw [if_neg haf] at hmem
      by_cases hat : acc = to_
      · rw [if_pos hat] at hmem
        rcases List.mem_append.mp hmem with hm1 | hm2
        · obtain ⟨k2, hk2, hk2o⟩ := hOS to_ d hm1
          have hd : d ≠ kitty_id := by
            intro he
            exact hnotin_to (he ▸ hm1)
          rw [if_neg hd]
          exact ⟨k2, hk2, by rw [hat, hk2o]⟩
        · have hd : d = kitty_id := List.mem_singleton.mp hm2
          rw [if_pos hd]
          exact ⟨_, rfl, by rw [hoto, hat]⟩
      · rw [if_neg hat] at hmem
        obtain ⟨k2, hk2, hk2o⟩ := hOS acc d hmem
        have hd : d ≠ kitty_id := by
          intro he
          subst he
          exact hnotin acc haf hmem
        rw [if_neg hd]
        exact ⟨k2, hk2, hk2o⟩

theorem Inv_set_price {caller kitty_id : Nat} {new_price : Option Nat} {st st' : State}
    (hI : Inv st) (hs : do_set_price caller kitty_id new_price st = (.ok (), st')) : Inv st' := by
  obtain ⟨hIC, hOS⟩ := hI
  obtain ⟨kitty, hget0, hown, hk, ho, hc, hbal⟩ := do_set_price_ok_elim hs
  have hker : ({ kitty with price := new_price } : Kitty).owner = kitty.owner := rfl
  constructor
  · intro d k hget
    rw [hk, getA_insertA] at hget
    by_cases hd : d = kitty_id
    · subst hd
      rw [if_pos rfl] at hget
      injection hget with hkk
      subst hkk
      rw [ho, hker]
      exact hIC _ kitty hget0
    · rw [if_neg hd] at hget
      rw [ho]
      exact hIC d k hget
  · intro acc d hmem
    rw [ho] at hmem
    rw [hk, getA_insertA]
    obtain ⟨k2, hk2, hk2o⟩ := hOS acc d hmem
    by_cases hd : d = kitty_id
    · subst hd
      rw [if_pos rfl]
      have hk2k : k2 = kitty := by
        rw [hget0] at hk2
        injection hk2 with hkk
        exact hkk.symm
      refine ⟨_, rfl, ?_⟩
      rw [hker, ← hk2k]
      exact hk2o
    · rw [if_neg hd]
      exact ⟨k2, hk2, hk2o⟩

theorem Inv_buy {maxOwned buyer kitty_id price : Nat} {st st' : State} (hI : Inv st)
    (hb : do_buy_kitty maxOwned buyer kitty_id price st = (.ok (), st')) : Inv st' := by
  obtain ⟨kitty, real_price, st1, hget0, hp, hle, hled, htr⟩ := do_buy_kitty_ok_elim hb
  obtain ⟨hamt, hk1, ho1, hc1, h5, h6, h7, h8⟩ := ledger_ok_elim hled
  have hI1 : Inv st1 := by
    obtain ⟨hIC, hOS⟩ := hI
    constructor
    · intro d k hget
      rw [hk1] at hget
      rw [ho1]
      exact hIC d k hget
    · intro acc d hmem
      rw [ho1] at hmem
      rw [hk1]
      exact hOS acc d hmem
  exact Inv_transfer hI1 htr

theorem Inv_empty : Inv emptyState := by
  constructor
  · intro d k hget
    simp [emptyState, getA] at hget
  · intro acc d hmem
    simp [emptyState] at hmem

theorem Reachable_Inv {maxOwned : Nat} {st : State} (h : Reachable maxOwned st) : Inv st := by
  induction h with
  | empty => exact Inv_empty
  | mint_step hr hm ih => exact Inv_mint ih hm
  | transfer_step hr ht ih => exact Inv_transfer ih ht
  | set_price_step hr hs ih => exact Inv_set_price ih hs
  | buy_step hr hb ih => exact Inv_buy ih hb

/-! Preservation of counter-table agreement. -/

theorem counterAgrees_empty : counterAgrees emptyState := rfl

theorem counterAgrees_mint {maxOwned owner dna : Nat} {st st' : State}
    (hm : mint maxOwned owner dna st = (.ok (), st')) (h : counterAgrees st) :
    counterAgrees st' := by
  obtain ⟨hnc, _, _, hk, _, hc, _⟩ := mint_ok_elim hm
  unfold counterAgrees at h ⊢
  rw [hc, hk, length_insertA, hnc]
  simp [h]

theorem counterAgrees_transfer {maxOwned from_ to_ kitty_id : Nat} {st st' : State}
    (ht : do_transfer maxOwned from_ to_ kitty_id st = (.ok (), st')) (h : counterAgrees st) :
    counterAgrees st' := by
  obtain ⟨hft, kitty, ind, hget0, _, _, _, hk, _, hc, _⟩ := do_transfer_ok_elim ht
  have hcont : containsKey st.kitties kitty_id = true := (containsKey_iff _ _).mpr ⟨kitty, hget0⟩
  unfold counterAgrees at h ⊢
  rw [hc, hk, length_insertA, hcont]
  simp [h]

theorem counterAgrees_set_price {caller kitty_id : Nat} {new_price : Option Nat} {st st' : State}
    (hs : do_set_price caller kitty_id new_price st = (.ok (), st')) (h : counterAgrees st) :
    counterAgrees st' := by
  obtain ⟨kitty, hget0, _, hk, _, hc, _⟩ := do_set_price_ok_elim hs
  have hcont : containsKey st.kitties kitty_id = true := (containsKey_iff _ _).mpr ⟨kitty, hget0⟩
  unfold counterAgrees at h ⊢
  rw [hc, hk, length_insertA, hcont]
  simp [h]

theorem counterAgrees_buy {maxOwned buyer kitty_id price : Nat} {st st' : State}
    (hb : do_buy_kitty maxOwned buyer kitty_id price st = (.ok (), st')) (h : counterAgrees st) :
    counterAgrees st' := by
  obtain ⟨kitty, real_price, st1, hget0, hp, hle, hled, htr⟩ := do_buy_kitty_ok_elim hb
  obtain ⟨_, hk1, _, hc1, _⟩ := ledger_ok_elim hled
  have h1 : counterAgrees st1 := by
    unfold counterAgrees at h ⊢
    rw [hc1, hk1]
    exact h
  exact counterAgrees_transfer htr h1

theorem Reachable_counterAgrees {maxOwned : Nat} {st : State} (h : Reachable maxOwned st) :
    counterAgrees st := by
  induction h with
  | empty => exact counterAgrees_empty
  | mint_step hr hm ih => exact counterAgrees_mint hm ih
  | transfer_step hr ht ih => exact counterAgrees_transfer ht ih
  | set_price_step hr hs ih => exact counterAgrees_set_price hs ih
  | buy_step hr hb ih => exact counterAgrees_buy hb ih

/-! Frame facts for failing buys. -/

theorem ledger_tables_eq_of {source dest amount : Nat} {st st' : State} {r : Except Err Unit}
    (h : nativeBalanceTransfer source dest amount st = (r, st')) :
    st'.kitties = st.kitties ∧ st'.kittiesOwned = st.kittiesOwned ∧
    st'.countForKitties = st.countForKitties := by
  have hh := ledger_tables_eq source dest amount st
  rw [h] at hh
  exact hh

theorem do_buy_kitty_err_tables {maxOwned buyer kitty_id price : Nat} {st st' : State} {e : Err}
    (h : do_buy_kitty maxOwned buyer kitty_id price st = (.error e, st')) :
    st'.kitties = st.kitties ∧ st'.kittiesOwned = st.kittiesOwned ∧
    st'.countForKitties = st.countForKitties := by
  unfold do_buy_kitty at h
  cases hk : getA st.kitties kitty_id with
  | none =>
    simp only [hk] at h
    injection h with h1 h2
    rw [← h2]
    exact ⟨rfl, rfl, rfl⟩
  | some kitty =>
    simp only [hk] at h
    cases hp : kitty.price with
    | none =>
      simp only [hp] at h
      injection h with h1 h2
      rw [← h2]
      exact ⟨rfl, rfl, rfl⟩
    | some real_price =>
      simp only [hp] at h
      by_cases h1 : real_price ≤ price
      · rw [if_pos h1] at h
        cases hled : nativeBalanceTransfer buyer kitty.owner real_price st with
        | mk res1 st1 =>
          obtain ⟨hk1, ho1, hc1⟩ := ledger_tables_eq_of hled
          cases res1 with
          | error e1 =>
            simp only [hled] at h
            injection h with h2 h3
            rw [← h3]
            exact ⟨hk1, ho1, hc1⟩
          | ok u =>
            cases u
            simp only [hled] at h
            cases htr : do_transfer maxOwned kitty.owner buyer kitty_id st1 with
            | mk res2 st2 =>
              cases res2 with
              | error e2 =>
                simp only [htr] at h
                injection h with h2 h3
                rw [← h3]
                have hst2 : st2 = st1 := do_transfer_err_eq htr
                rw [hst2]
                exact ⟨hk1, ho1, hc1⟩
              | ok u2 =>
                cases u2
                simp only [htr] at h
                simp at h
      · rw [if_neg h1] at h
        injection h with h2 h3
        rw [← h3]
        exact ⟨rfl, rfl, rfl⟩

/-! Claim theorems. -/

/-- C1: in every state reachable from the empty registry via successful
mint, do_transfer, do_set_price and do_buy_kitty operations, every asset
recorded in the asset table has its identifier appear in its recorded
owner's inventory list exactly once, and in no other owner's list. -/
theorem C1_inventory_consistency (maxOwned : Nat) (st : State)
    (h : Reachable maxOwned st) : inventoryConsistent st :=
  (Reachable_Inv h).1

theorem C1_inventory_consistency_witness :
    (mintedState.kittiesOwned 0).count 7 = 1 :=
  (C1_inventory_consistency 5 mintedState
    (Reachable.mint_step Reachable.empty rfl) 7
    { dna := 7, owner := 0, price := none } rfl).1

/-- C2 counterexample: with MaxOwned = 1, buyer 2 whose inventory is full
buys kitty 7 from account 1 at price 10; do_buy_kitty returns the
TooManyOwned error, yet the funds ledger shows the 10 units moved from the
buyer to the seller, so the pre-call state is not restored. -/
theorem C2_buy_not_all_or_nothing_counterexample :
    (do_buy_kitty 1 2 7 10 fullBuyerState).1 = .error .TooManyOwned ∧
    (do_buy_kitty 1 2 7 10 fullBuyerState).2.balances 2 = 90 ∧
    (do_buy_kitty 1 2 7 10 fullBuyerState).2.balances 1 = 10 ∧
    fullBuyerState.balances 2 = 100 ∧
    fullBuyerState.balances 1 = 0 :=
  ⟨rfl, rfl, rfl, rfl, rfl⟩

/-- C2 amended: when do_buy_kitty returns an error, the asset table, the
inventory lists and the counter are exactly as before the call; the funds
ledger, however, may reflect a completed payment when the internal
ownership transfer failed after the funds transfer succeeded. -/
theorem C2_buy_error_frame (maxOwned buyer kitty_id price : Nat) (st : State) (e : Err)
    (h : (do_buy_kitty maxOwned buyer kitty_id price st).1 = .error e) :
    (do_buy_kitty maxOwned buyer kitty_id price st).2.kitties = st.kitties ∧
    (do_buy_kitty maxOwned buyer kitty_id price st).2.kittiesOwned = st.kittiesOwned ∧
    (do_buy_kitty maxOwned buyer kitty_id price st).2.countForKitties = st.countForKitties := by
  cases hres : do_buy_kitty maxOwned buyer kitty_id price st with
  | mk r st' =>
    rw [hres] at h
    cases r with
    | ok u => simp at h
    | error e2 => exact do_buy_kitty_err_tables hres

theorem C2_buy_error_frame_witness :
    (do_buy_kitty 1 2 7 10 fullBuyerState).2.countForKitties = fullBuyerState.countForKitties :=
  (C2_buy_error_frame 1 2 7 10 fullBuyerState .TooManyOwned rfl).2.2

/-- C3 counterexample: a successful buy of kitty 7 at its asking price 10
leaves the price field still set to 10 in the resulting state; the price is
not cleared to None. -/
theorem C3_buy_clears_price_counterexample :
    (do_buy_kitty 5 2 7 10 listedState).1 = .ok () ∧
    getA (do_buy_kitty 5 2 7 10 listedState).2.kitties 7 =
      some { dna := 7, owner := 2, price := some 10 } :=
  ⟨rfl, rfl⟩

/-- C3 amended: a successful do_buy_kitty leaves the asset's price field
unchanged — the asset was listed (price not None) before the buy and keeps
exactly that listed price afterwards, rather than being reset to None. -/
theorem C3_buy_keeps_price (maxOwned buyer kitty_id price : Nat) (st : State)
    (kitty : Kitty) (hget : getA st.kitties kitty_id = some kitty)
    (hok : (do_buy_kitty maxOwned buyer kitty_id price st).1 = .ok ()) :
    kitty.price ≠ none ∧
    ∃ k', getA (do_buy_kitty maxOwned buyer kitty_id price st).2.kitties kitty_id = some k' ∧
      k'.price = kitty.price := by
  cases hres : do_buy_kitty maxOwned buyer kitty_id price st with
  | mk r st' =>
    rw [hres] at hok
    cases r with
    | error e => simp at hok
    | ok u =>
      cases u
      obtain ⟨kitty2, real_price, st1, hget0, hp, hle, hled, htr⟩ := do_buy_kitty_ok_elim hres
      have hkk : kitty2 = kitty := by
        rw [hget] at hget0
        injection hget0 with hh
        exact hh.symm
      obtain ⟨_, hk1, _, _, _, _, _, _⟩ := ledger_ok_elim hled
      obtain ⟨hft, kitty3, ind, hget1, hown1, _, _, hk, _, _, _⟩ := do_transfer_ok_elim htr
      have hkk3 : kitty3 = kitty := by
        rw [hk1, hget] at hget1
        injection hget1 with hh
        exact hh.symm
      constructor
      · rw [← hkk, hp]
        simp
      · show ∃ k', getA st'.kitties kitty_id = some k' ∧ k'.price = kitty.price
        rw [hk, getA_insertA, if_pos rfl]
        refine ⟨{ kitty3 with owner := buyer }, rfl, ?_⟩
        show kitty3.price = kitty.price
        rw [hkk3]

theorem C3_buy_keeps_price_witness :
    ({ dna := 7, owner := 1, price := some 10 } : Kitty).price ≠ none ∧
    ∃ k', getA (do_buy_kitty 5 2 7 10 listedState).2.kitties 7 = some k' ∧
      k'.price = ({ dna := 7, owner := 1, price := some 10 } : Kitty).price :=
  C3_buy_keeps_price 5 2 7 10 listedState { dna := 7, owner := 1, price := some 10 } rfl rfl

/-- C4: when a transfer reaches the destination-append step (the checks on
self-transfer, existence and ownership pass) and the destination inventory
is at MaxOwned capacity, do_transfer returns TooManyOwned and the whole
state — both inventories and the asset table — is exactly the pre-call
state. -/
theorem C4_transfer_capacity_atomic (maxOwned from_ to_ kitty_id : Nat) (st : State)
    (kitty : Kitty) (h1 : from_ ≠ to_) (h2 : getA st.kitties kitty_id = some kitty)
    (h3 : kitty.owner = from_) (h4 : ¬ (st.kittiesOwned to_).length < maxOwned) :
    do_transfer maxOwned from_ to_ kitty_id st = (.error .TooManyOwned, st) := by
  unfold do_transfer
  rw [if_neg h1]
  simp only [h2]
  rw [if_pos h3, if_neg h4]

theorem C4_transfer_capacity_atomic_witness :
    do_transfer 1 1 2 7 fullBuyerState = (.error .TooManyOwned, fullBuyerState) :=
  C4_transfer_capacity_atomic 1 1 2 7 fullBuyerState
    { dna := 7, owner := 1, price := some 10 } (by decide) rfl rfl (by decide)

/-- C5: do_buy_kitty fails with MaxPriceTooLow whenever the buyer's ceiling
is below the listed price (leaving the state untouched), succeeds only when
the asset is listed at a price p with max_price at least p, and on success
the funds ledger moves exactly p — never max_price — from the buyer to the
previous owner, all other balances unchanged. -/
theorem C5_buy_ceiling_exact_payment (maxOwned buyer kitty_id max_price : Nat) (st : State) :
    (∀ kitty p, getA st.kitties kitty_id = some kitty → kitty.price = some p →
      max_price < p →
      do_buy_kitty maxOwned buyer kitty_id max_price st = (.error .MaxPriceTooLow, st)) ∧
    ((do_buy_kitty maxOwned buyer kitty_id max_price st).1 = .ok () →
      ∃ kitty p, getA st.kitties kitty_id = some kitty ∧ kitty.price = some p ∧
        p ≤ max_price ∧ buyer ≠ kitty.owner ∧
        (do_buy_kitty maxOwned buyer kitty_id max_price st).2.balances buyer + p =
          st.balances buyer ∧
        (do_buy_kitty maxOwned buyer kitty_id max_price st).2.balances kitty.owner =
          st.balances kitty.owner + p ∧
        ∀ a, a ≠ buyer → a ≠ kitty.owner →
          (do_buy_kitty maxOwned buyer kitty_id max_price st).2.balances a = st.balances a) := by
  constructor
  · intro kitty p hget hp hlt
    unfold do_buy_kitty
    simp only [hget, hp]
    rw [if_neg (not_le.mpr hlt)]
  · intro hok
    cases hres : do_buy_kitty maxOwned buyer kitty_id max_price st with
    | mk r st' =>
      rw [hres] at hok
      cases r with
      | error e => simp at hok
      | ok u =>
        cases u
        obtain ⟨kitty, p, st1, hget, hp, hle, hled, htr⟩ := do_buy_kitty_ok_elim hres
        obtain ⟨hamt, hk1, ho1, hc1, h5, h6, h7, h8⟩ := ledger_ok_elim hled
        obtain ⟨hft, kitty3, ind, hget1, hown1, _, _, _, _, _, hbal⟩ := do_transfer_ok_elim htr
        have hne : buyer ≠ kitty.owner := fun hh => hft hh.symm
        refine ⟨kitty, p, hget, hp, hle, hne, ?_, ?_, ?_⟩
        · show st'.balances buyer + p = st.balances buyer
          rw [hbal]
          exact h5 hne
        · show st'.balances kitty.owner = st.balances kitty.owner + p
          rw [hbal]
          exact h6 hne
        · intro a ha1 ha2
          show st'.balances a = st.balances a
          rw [hbal]
          exact h8 a ha1 ha2

theorem C5_buy_ceiling_exact_payment_witness :
    do_buy_kitty 5 2 7 5 listedState = (.error .MaxPriceTooLow, listedState) :=
  (C5_buy_ceiling_exact_payment 5 2 7 5 listedState).1
    { dna := 7, owner := 1, price := some 10 } 10 rfl rfl (by decide)

/-- C6: a failing mint leaves the state exactly as before the call, and the
failure conditions are DuplicateKitty when the dna is already recorded,
TooManyKitties when the counter sits at the u32 maximum, and TooManyOwned
when the owner's inventory is full. -/
theorem C6_mint_failure_frame (maxOwned owner dna : Nat) (st : State) :
    (∀ e, (mint maxOwned owner dna st).1 = .error e → (mint maxOwned owner dna st).2 = st) ∧
    (containsKey st.kitties dna = true →
      mint maxOwned owner dna st = (.error .DuplicateKitty, st)) ∧
    (containsKey st.kitties dna = false → st.countForKitties = 2 ^ 32 - 1 →
      mint maxOwned owner dna st = (.error .TooManyKitties, st)) ∧
    (containsKey st.kitties dna = false → st.countForKitties + 1 < 2 ^ 32 →
      ¬ (st.kittiesOwned owner).length < maxOwned →
      mint maxOwned owner dna st = (.error .TooManyOwned, st)) := by
  refine ⟨?_, ?_, ?_, ?_⟩
  · intro e h
    cases hres : mint maxOwned owner dna st with
    | mk r st' =>
      rw [hres] at h
      cases r with
      | ok u => simp at h
      | error e2 => exact mint_err_eq hres
  · intro hcont
    unfold mint
    rw [hcont]
    simp
  · intro hcont hmax
    have hca : checkedAddOne st.countForKitties = none := by
      unfold checkedAddOne
      rw [hmax]
      norm_num
    unfold mint
    rw [hcont, hca]
    simp
  · intro hcont hlt hfull
    have hca : checkedAddOne st.countForKitties = some (st.countForKitties + 1) := by
      unfold checkedAddOne
      rw [if_pos hlt]
    unfold mint
    rw [hcont, hca]
    simp only [Bool.false_eq_true, if_false]
    rw [if_neg hfull]

theorem C6_mint_failure_frame_witness :
    mint 1 2 8 fullBuyerState = (.error .DuplicateKitty, fullBuyerState) :=
  (C6_mint_failure_frame 1 2 8 fullBuyerState).2.1 rfl

/-- C7: in every reachable state the global counter equals the number of
asset-table entries; a successful mint increments the counter by exactly 1
together with exactly one new table entry; a failed mint changes nothing;
and do_transfer, do_set_price and do_buy_kitty never change the counter on
any path, so no operation ever decrements it. -/
theorem C7_counter_table_agreement :
    (∀ maxOwned st, Reachable maxOwned st → st.countForKitties = st.kitties.length) ∧
    (∀ maxOwned owner dna st st', mint maxOwned owner dna st = (.ok (), st') →
      st'.countForKitties = st.countForKitties + 1 ∧
      st'.kitties.length = st.kitties.length + 1) ∧
    (∀ maxOwned owner dna st e st', mint maxOwned owner dna st = (.error e, st') → st' = st) ∧
    (∀ maxOwned from_ to_ kitty_id st,
      ((do_transfer maxOwned from_ to_ kitty_id st).2).countForKitties = st.countForKitties) ∧
    (∀ caller kitty_id new_price st,
      ((do_set_price caller kitty_id new_price st).2).countForKitties = st.countForKitties) ∧
    (∀ maxOwned buyer kitty_id price st,
      ((do_buy_kitty maxOwned buyer kitty_id price st).2).countForKitties =
        st.countForKitties) := by
  refine ⟨?_, ?_, ?_, ?_, ?_, ?_⟩
  · intro maxOwned st h
    exact Reachable_counterAgrees h
  · intro maxOwned owner dna st st' hm
    obtain ⟨hnc, _, _, hk, _, hc, _⟩ := mint_ok_elim hm
    refine ⟨hc, ?_⟩
    rw [hk, length_insertA, hnc]
    simp
  · intro maxOwned owner dna st e st' hm
    exact mint_err_eq hm
  · intro maxOwned from_ to_ kitty_id st
    cases hres : do_transfer maxOwned from_ to_ kitty_id st with
    | mk r st' =>
      cases r with
      | ok u =>
        cases u
        obtain ⟨_, _, _, _, _, _, _, _, _, hc, _⟩ := do_transfer_ok_elim hres
        exact hc
      | error e =>
        rw [do_transfer_err_eq hres]
  · intro caller kitty_id new_price st
    cases hres : do_set_price caller kitty_id new_price st with
    | mk r st' =>
      cases r with
      | ok u =>
        cases u
        obtain ⟨_, _, _, _, _, hc, _⟩ := do_set_price_ok_elim hres
        exact hc
      | error e =>
        rw [do_set_price_err_eq hres]
  · intro maxOwned buyer kitty_id price st
    cases hres : do_buy_kitty maxOwned buyer kitty_id price st with
    | mk r st' =>
      cases r with
      | ok u =>
        cases u
        obtain ⟨kitty, p, st1, _, _, _, hled, htr⟩ := do_buy_kitty_ok_elim hres
        obtain ⟨_, _, _, hc1, _⟩ := ledger_ok_elim hled
        obtain ⟨_, _, _, _, _, _, _, _, _, hc2, _⟩ := do_transfer_ok_elim htr
        rw [hc2, hc1]
      | error e =>
        exact (do_buy_kitty_err_tables hres).2.2

theorem C7_counter_table_agreement_witness :
    mintedState.countForKitties = mintedState.kitties.length :=
  C7_counter_table_agreement.1 5 mintedState (Reachable.mint_step Reachable.empty rfl)

/-- C8: the dispatched transfer, set_price and buy_kitty extrinsics are
stubs — for every signed caller and all arguments they return success and
leave the entire state (asset table, inventories, counter, ledger)
unchanged, never reaching do_transfer, do_set_price or do_buy_kitty. -/
theorem C8_stub_extrinsics (who to_ kitty_id max_price : Nat) (new_price : Option Nat)
    (st : State) :
    transfer (.signed who) to_ kitty_id st = (.ok (), st) ∧
    set_price (.signed who) kitty_id new_price st = (.ok (), st) ∧
    buy_kitty (.signed who) kitty_id max_price st = (.ok (), st) :=
  ⟨rfl, rfl, rfl⟩

/-- C9: gen_dna is a pure function of the parent block hash, the block
number, the extrinsic index and the counter — equal context yields an equal
256-bit identifier — and it returns the state unchanged. -/
theorem C9_gen_dna_deterministic :
    (∀ (c1 c2 : BlockContext) (st1 st2 : State),
      c1.parent_hash = c2.parent_hash → c1.block_number = c2.block_number →
      c1.extrinsic_index = c2.extrinsic_index →
      st1.countForKitties = st2.countForKitties →
      (gen_dna c1 st1).1 = (gen_dna c2 st2).1) ∧
    (∀ (c : BlockContext) (st : State), (gen_dna c st).2 = st) := by
  constructor
  · intro c1 c2 st1 st2 h1 h2 h3 h4
    unfold gen_dna
    rw [h1, h2, h3, h4]
  · intro c st
    rfl

theorem C9_gen_dna_deterministic_witness :
    (gen_dna { parent_hash := 1, block_number := 2, extrinsic_index := some 3 } emptyState).1 =
    (gen_dna { parent_hash := 1, block_number := 2, extrinsic_index := some 3 }
      { kitties := [], kittiesOwned := fun _ => [], countForKitties := 0,
        balances := fun _ => 5 }).1 :=
  C9_gen_dna_deterministic.1 _ _ _ _ rfl rfl rfl rfl

/-- C10 counterexample: account 1 owns kitty 7 listed at 10 but holds
balance 0; buying its own kitty with max_price 10 fails in the funds
ledger with InsufficientBalance, not with TransferToSelf, so the claim's
unconditional TransferToSelf result is wrong. -/
theorem C10_self_buy_counterexample :
    getA listedState.kitties 7 = some { dna := 7, owner := 1, price := some 10 } ∧
    listedState.balances 1 = 0 ∧
    (do_buy_kitty 5 1 7 10 listedState).1 = .error .InsufficientBalance ∧
    Err.InsufficientBalance ≠ Err.TransferToSelf :=
  ⟨rfl, rfl, rfl, by decide⟩

/-- C10 amended: when the asset exists, is listed at p with max_price at
least p, the buyer is the recorded owner, and the buyer's balance covers p
(so the ledger's self-transfer succeeds), do_buy_kitty returns the
TransferToSelf error raised by the internal ownership transfer after the
funds transfer was invoked; the self-payment nets to zero, so the final
state equals the initial one pointwise. -/
theorem C10_self_buy_transfer_to_self (maxOwned buyer kitty_id max_price : Nat) (st : State)
    (kitty : Kitty) (p : Nat) (hget : getA st.kitties kitty_id = some kitty)
    (howner : kitty.owner = buyer) (hp : kitty.price = some p) (hceil : p ≤ max_price)
    (hbal : p ≤ st.balances buyer) :
    (do_buy_kitty maxOwned buyer kitty_id max_price st).1 = .error .TransferToSelf ∧
    (do_buy_kitty maxOwned buyer kitty_id max_price st).2.kitties = st.kitties ∧
    (do_buy_kitty maxOwned buyer kitty_id max_price st).2.kittiesOwned = st.kittiesOwned ∧
    (do_buy_kitty maxOwned buyer kitty_id max_price st).2.countForKitties =
      st.countForKitties ∧
    (∀ a, (do_buy_kitty maxOwned buyer kitty_id max_price st).2.balances a = st.balances a) := by
  unfold do_buy_kitty
  simp only [hget, hp]
  rw [if_pos hceil, howner]
  have hled : nativeBalanceTransfer buyer buyer p st =
      (.ok (), { st with balances := fun a =>
        if a = buyer then
          (if buyer = buyer then st.balances buyer - p else st.balances buyer) + p
        else if a = buyer then st.balances buyer - p else st.balances a }) := by
    unfold nativeBalanceTransfer
    rw [if_pos hbal]
  simp only [hled]
  have htr : ∀ s, do_transfer maxOwned buyer buyer kitty_id s = (.error .TransferToSelf, s) := by
    intro s
    unfold do_transfer
    rw [if_pos rfl]
  simp only [htr]
  refine ⟨trivial, trivial, trivial, trivial, ?_⟩
  intro a
  by_cases ha : a = buyer
  · simp only [ha, if_true, if_pos rfl]
    omega
  · simp only [if_neg ha]

theorem C10_self_buy_transfer_to_self_witness :
    (do_buy_kitty 5 1 7 10 richOwnerState).1 = .error .TransferToSelf :=
  (C10_self_buy_transfer_to_self 5 1 7 10 richOwnerState
    { dna := 7, owner := 1, price := some 10 } 10 rfl rfl rfl (by decide) (by decide)).1

end KittiesPallet
